import Mathlib

/-!
Verification of the serialized retry queue in `src/services/geminiService.ts`.

The file shallowly embeds the second (queue-based) revision of the service:

* `isRateLimitError` — the error classifier
  (`errorString.includes('429') || errorString.toLowerCase().includes('rate limit')`);
* `retryFromAttempt` / `safeApiCall` — the bounded retry loop with exponential
  backoff inside `requestWithRetries`;
* `QueueState` / `QueueStep` — a small-step model of `apiRequestQueue`,
  `isApiCallInFlight` and `processApiRequestQueue`, with a ghost clock for the
  inter-item cooldown;
* the feature-level work items `analyzeSentiment` and `forecastProductDemand`
  to the extent the claims need them (the external AI response is an oracle
  parameter; prompt text is irrelevant to the claims and not modelled).

JavaScript strings are modelled as `List Char`; `null` as `Option.none`;
a promise that fulfills or rejects as `AttemptOutcome`.
-/

namespace GeminiService

/-- A JavaScript string value, modelled as its list of characters. -/
abbrev JStr := List Char

/-- The pattern `'429'` from the classifier. -/
def pat429 : JStr := ['4', '2', '9']

/-- The pattern `'rate limit'` from the classifier. -/
def patRateLimit : JStr := ['r', 'a', 't', 'e', ' ', 'l', 'i', 'm', 'i', 't']

/-- JavaScript `s.includes(pat)`: substring containment of `pat` in `s`. -/
def jsIncludes (s pat : JStr) : Bool := decide (pat <:+: s)

/-- JavaScript `s.toLowerCase()`, characterwise lowering (the patterns involved
are ASCII, where this matches the JS behaviour). -/
def jsToLower (s : JStr) : JStr := s.map Char.toLower

/-- Embeds the classifier in `requestWithRetries`:
`errorString.includes('429') || errorString.toLowerCase().includes('rate limit')`. -/
def isRateLimitError (e : JStr) : Bool :=
  jsIncludes e pat429 || jsIncludes (jsToLower e) patRateLimit

/-- The spec's wording of the retryable class: the stringified representation
contains the substring "429", or contains a segment that is a case-insensitive
occurrence of "rate limit". -/
def retryableSpec (e : JStr) : Prop :=
  pat429 <:+: e ∨ ∃ mid : JStr, jsToLower mid = patRateLimit ∧ mid <:+: e

/-- Outcome of one invocation of a work item: its promise either fulfills with
a value of type `T` or rejects with an error whose stringified representation
is `e`. -/
inductive AttemptOutcome (T : Type) where
  | ok (v : T)
  | err (e : JStr)
deriving DecidableEq

/-- `true` exactly when the attempt failed and the error is classified
retryable by `isRateLimitError`. -/
def retryableOutcome {T : Type} : AttemptOutcome T → Bool
  | .ok _ => false
  | .err e => isRateLimitError e

/-- Observable outcome of running `requestWithRetries` for one work item:
the value the caller's promise resolves with (`none` is JS `null`), how many
times `apiCall` was invoked, and the backoff delays awaited, in order. -/
structure RunResult (T : Type) where
  result : Option T
  calls : Nat
  waits : List Nat
deriving DecidableEq

/-- The `for (let attempt = 1; attempt <= maxRetries; attempt++)` loop of
`requestWithRetries`, at loop counter `attempt` with `fuel` iterations left
(`fuel = maxRetries - attempt + 1`; in particular `attempt < maxRetries` holds
exactly when `fuel ≥ 2`).  On success it resolves with the result; on a
retryable error with attempts remaining it awaits
`initialDelay * 2 ^ (attempt - 1)` and continues; otherwise it resolves with
`null`; if the loop runs out it resolves with `null`. -/
def retryFromAttempt {T : Type} (work : Nat → AttemptOutcome T)
    (initialDelay : Nat) : Nat → Nat → RunResult T
  | _, 0 => ⟨none, 0, []⟩
  | attempt, r + 1 =>
    match work attempt with
    | .ok v => ⟨some v, 1, []⟩
    | .err e =>
      if isRateLimitError e && decide (0 < r) then
        let rest := retryFromAttempt work initialDelay (attempt + 1) r
        ⟨rest.result, rest.calls + 1, initialDelay * 2 ^ (attempt - 1) :: rest.waits⟩
      else ⟨none, 1, []⟩

/-- `safeApiCall(apiCall, maxRetries, initialDelay)`: run the retry loop from
attempt 1.  `work k` is the outcome of the `k`-th invocation of `apiCall`. -/
def safeApiCall {T : Type} (work : Nat → AttemptOutcome T)
    (maxRetries initialDelay : Nat) : RunResult T :=
  retryFromAttempt work initialDelay 1 maxRetries

/-- A work item every attempt of which rejects with a "429" error. -/
def alwaysRate : Nat → AttemptOutcome Nat := fun _ => .err pat429

/-- A work item every attempt of which rejects with an error that is not
rate-limit shaped. -/
def alwaysBoom : Nat → AttemptOutcome Nat := fun _ => .err ['b', 'o', 'o', 'm']

/-- The fixed cooldown `await delay(2000)` that `processApiRequestQueue`
performs between two queued requests. -/
def cooldown : Nat := 2000

/-- One live stage of a drain invocation that passed the guard: the head work
item is being awaited (`running id`), or the item is done and the
`await delay(2000)` cooldown is in progress (`cooling`). -/
inductive DrainEntry where
  | running (id : Nat)
  | cooling
deriving DecidableEq

/-- `true` on a `running` entry: the work item is in flight. -/
def DrainEntry.isRun : DrainEntry → Bool
  | .running _ => true
  | .cooling => false

/-- State of `apiRequestQueue` (the `pending` list) and `isApiCallInFlight`
(the `inFlight` flag) together with ghost observation variables: the order in
which items were submitted, the (item, clock) pairs of starts and finishes in
chronological order, the live drain stages, and a ghost clock `now`. -/
structure QueueState where
  pending : List Nat
  submitted : List Nat
  started : List (Nat × Nat)
  finished : List (Nat × Nat)
  active : List DrainEntry
  inFlight : Bool
  now : Nat
deriving DecidableEq

/-- Module load: empty queue, flag down. -/
def initialQueueState : QueueState := ⟨[], [], [], [], [], false, 0⟩

/-- Small-step semantics of the queue.  `submit` is the `apiRequestQueue.push`
in `safeApiCall`; `guardNoop` and `guardPass` are the two ways through
`if (isApiCallInFlight || apiRequestQueue.length === 0) return;` followed by
`isApiCallInFlight = true` and `shift()`; `finishItem` is the completion
(fulfillment or caught rejection, recorded in `success`) of
`await apiRequest()`; `coolDone` is the completion of `await delay(2000)`
followed by `isApiCallInFlight = false`; `tick` lets any amount of wall-clock
time pass at a suspension point. -/
inductive QueueStep : QueueState → QueueState → Prop where
  | submit (s : QueueState) (id : Nat) :
      QueueStep s { s with pending := s.pending ++ [id],
                           submitted := s.submitted ++ [id] }
  | guardNoop (s : QueueState) :
      s.inFlight = true ∨ s.pending = [] → QueueStep s s
  | guardPass (s : QueueState) (id : Nat) (rest : List Nat) :
      s.inFlight = false → s.pending = id :: rest →
      QueueStep s { s with pending := rest, inFlight := true,
                           started := s.started ++ [(id, s.now)],
                           active := s.active ++ [DrainEntry.running id] }
  | finishItem (s : QueueState) (l₁ l₂ : List DrainEntry) (id : Nat)
      (success : Bool) :
      s.active = l₁ ++ DrainEntry.running id :: l₂ →
      QueueStep s { s with active := l₁ ++ DrainEntry.cooling :: l₂,
                           finished := s.finished ++ [(id, s.now)] }
  | coolDone (s : QueueState) (l₁ l₂ : List DrainEntry) :
      s.active = l₁ ++ DrainEntry.cooling :: l₂ →
      QueueStep s { s with active := l₁ ++ l₂, inFlight := false,
                           now := s.now + cooldown }
  | tick (s : QueueState) (d : Nat) :
      QueueStep s { s with now := s.now + d }

/-- States reachable from module load under any interleaving. -/
inductive QueueReachable : QueueState → Prop where
  | init : QueueReachable initialQueueState
  | step {s s' : QueueState} :
      QueueReachable s → QueueStep s s' → QueueReachable s'

/-- Inductive invariant of the queue. -/
structure QueueInv (s : QueueState) : Prop where
  activeLe : s.active.length ≤ 1
  idleEmpty : s.inFlight = false → s.active = []
  fifo : s.started.map Prod.fst ++ s.pending = s.submitted
  counts : s.finished.length + (s.active.filter DrainEntry.isRun).length =
    s.started.length
  finTimes : ∀ p ∈ s.finished, p.2 ≤ s.now
  idleCool : s.inFlight = false →
    ∀ a t, s.finished[s.finished.length - 1]? = some (a, t) →
      t + cooldown ≤ s.now
  gaps : ∀ k a t b u, s.finished[k]? = some (a, t) →
    s.started[k + 1]? = some (b, u) → t + cooldown ≤ u

/-- A concrete reachable state: items `1` and `2` submitted in that order;
item `1` ran and finished at clock 0, the cooldown elapsed, and item `2`
started at clock `cooldown`. -/
def queueWitnessState : QueueState :=
  ⟨[], [1, 2], [(1, 0), (2, cooldown)], [(1, 0)], [DrainEntry.running 2],
    true, cooldown⟩

/-- A product review (only the field the work items inspect). -/
structure Review where
  text : JStr
deriving DecidableEq

/-- A sale record; `month` stands for
`sale.timestamp.toISOString().substring(0, 7)` and `quantity` for the
quantity sold. -/
structure Sale where
  month : JStr
  quantity : Nat
deriving DecidableEq

/-- The parsed JSON of a sentiment-analysis response (the schema fields that
matter to the claims; the remaining fields cannot affect nullability). -/
structure SentimentResult where
  positive : Int
  neutral : Int
  negative : Int
  summary : JStr
deriving DecidableEq

/-- The work item body of `analyzeSentiment` (second revision): with an empty
review list it returns `null` — a successful resolution carrying the sentinel
— and otherwise it returns the parsed response of the AI call, whose outcome
on attempt `k` is `aiAttempt k`. -/
def analyzeSentimentWork (reviews : List Review)
    (aiAttempt : Nat → AttemptOutcome SentimentResult) (k : Nat) :
    AttemptOutcome (Option SentimentResult) :=
  if reviews.length = 0 then .ok none
  else
    match aiAttempt k with
    | .ok r => .ok (some r)
    | .err e => .err e

/-- `analyzeSentiment(reviews)`: the work item run through `safeApiCall` with
the second revision's defaults (`maxRetries = 5`, `initialDelay = 10000`). -/
def analyzeSentiment (reviews : List Review)
    (aiAttempt : Nat → AttemptOutcome SentimentResult) :
    RunResult (Option SentimentResult) :=
  safeApiCall (analyzeSentimentWork reviews aiAttempt) 5 10000

/-- What the JS caller observes: `safeApiCall` resolves with `T | null` where
here `T` is itself nullable, and JS does not nest `null`, so the two layers
flatten. -/
def callerView {R : Type} (r : RunResult (Option R)) : Option R :=
  r.result.join

/-- A concrete parsed sentiment response. -/
def sampleSentiment : SentimentResult := ⟨1, 0, 0, ['o', 'k']⟩

/-- An AI oracle that succeeds on every attempt. -/
def sentimentOracle : Nat → AttemptOutcome SentimentResult :=
  fun _ => .ok sampleSentiment

/-- A concrete review. -/
def sampleReview : Review := ⟨['g', 'o', 'o', 'd']⟩

/-- One point of the parsed forecast JSON. -/
structure AiForecastPoint where
  month : JStr
  predictedSales : Int
deriving DecidableEq

/-- The parsed JSON of a product-demand forecast AI response. -/
structure AiForecastResponse where
  forecast : List AiForecastPoint
  status : JStr
  recommendation : JStr
deriving DecidableEq

/-- A transformed point `{ date: f.month, forecast: f.predictedSales }`. -/
structure ForecastPoint where
  date : JStr
  forecast : Int
deriving DecidableEq

/-- The value the `forecastProductDemand` work item resolves with. -/
structure ProductForecastResult where
  forecast : List ForecastPoint
  status : JStr
  recommendation : JStr
  totalForecast : Int
deriving DecidableEq

/-- The early-return value of the work item when `salesData.length < 2`. -/
def notEnoughDataResult : ProductForecastResult :=
  ⟨[], "Watch".toList,
    "Not enough historical sales data for an accurate forecast.".toList, 0⟩

/-- The response transformation in `forecastProductDemand`:
`result.forecast.map(f => ({date: f.month, forecast: f.predictedSales}))` and
`totalForecast = transformedForecast.reduce((sum, item) => sum + item.forecast, 0)`. -/
def transformForecast (resp : AiForecastResponse) : ProductForecastResult :=
  let transformed :=
    resp.forecast.map (fun f => ForecastPoint.mk f.month f.predictedSales)
  ⟨transformed, resp.status, resp.recommendation,
    transformed.foldl (fun sum item => sum + item.forecast) 0⟩

/-- The work item body of `forecastProductDemand`: fewer than 2 sales records
short-circuits to `notEnoughDataResult` without consulting the AI oracle;
otherwise the AI response for attempt `k` is parsed and transformed. -/
def forecastProductDemandWork (salesData : List Sale)
    (aiAttempt : Nat → AttemptOutcome AiForecastResponse) (k : Nat) :
    AttemptOutcome ProductForecastResult :=
  if salesData.length < 2 then .ok notEnoughDataResult
  else
    match aiAttempt k with
    | .ok resp => .ok (transformForecast resp)
    | .err e => .err e

/-- `forecastProductDemand(product, salesData)`: the work item run through
`safeApiCall` with the second revision's defaults. -/
def forecastProductDemand (salesData : List Sale)
    (aiAttempt : Nat → AttemptOutcome AiForecastResponse) :
    RunResult ProductForecastResult :=
  safeApiCall (forecastProductDemandWork salesData aiAttempt) 5 10000

/-- One parsed recommendation: a product id and a justification (both fields
are marked required in the requested response schema). -/
structure RecommendationResult where
  productId : JStr
  justification : JStr
deriving DecidableEq

/-- The parsed JSON of a recommendations response; the schema marks
`recommendations` required. -/
structure RecsResponse where
  recommendations : List RecommendationResult
deriving DecidableEq

/-- The work item body of `getRecommendations` (second revision): its single
success path returns `result.recommendations`, an array — never `null`. -/
def getRecommendationsWork
    (aiAttempt : Nat → AttemptOutcome RecsResponse) (k : Nat) :
    AttemptOutcome (Option (List RecommendationResult)) :=
  match aiAttempt k with
  | .ok resp => .ok (some resp.recommendations)
  | .err e => .err e

/-- The parsed JSON of a pricing response.  The numeric price payload plays
no role in any claim; only its presence matters, so it is carried as an
opaque integral value. -/
structure PriceResult where
  optimalPrice : Int
  justification : JStr
deriving DecidableEq

/-- The work item body of `getOptimalPrice` (second revision): its single
success path returns `JSON.parse(response.text)`, the parsed response object
— never `null`. -/
def getOptimalPriceWork (aiAttempt : Nat → AttemptOutcome PriceResult)
    (k : Nat) : AttemptOutcome (Option PriceResult) :=
  match aiAttempt k with
  | .ok resp => .ok (some resp)
  | .err e => .err e

/-- A concrete parsed recommendations response. -/
def sampleRecs : RecsResponse := ⟨[⟨['p', '1'], ['f', 'i', 't']⟩]⟩

/-- An AI oracle for recommendations that succeeds on every attempt. -/
def recsOracle : Nat → AttemptOutcome RecsResponse := fun _ => .ok sampleRecs

/-- A concrete parsed pricing response. -/
def samplePrice : PriceResult := ⟨99, ['f', 'a', 'i', 'r']⟩

/-- An AI oracle for pricing that succeeds on every attempt. -/
def priceOracle : Nat → AttemptOutcome PriceResult := fun _ => .ok samplePrice

/-- A concrete sale record. -/
def sampleSale : Sale := ⟨"2024-01".toList, 3⟩

/-- A concrete parsed forecast response. -/
def sampleForecastResponse : AiForecastResponse :=
  ⟨[⟨"2024-02".toList, 4⟩], "Healthy".toList, "ok".toList⟩

/-- An AI oracle for forecasting that succeeds on every attempt. -/
def forecastOracle : Nat → AttemptOutcome AiForecastResponse :=
  fun _ => .ok sampleForecastResponse

theorem retryFromAttempt_result_ok {T : Type} (work : Nat → AttemptOutcome T)
    (initialDelay : Nat) :
    ∀ fuel attempt v,
      (retryFromAttempt work initialDelay attempt fuel).result = some v →
      ∃ k, attempt ≤ k ∧ k < attempt + fuel ∧ work k = .ok v := by
  intro fuel
  induction fuel with
  | zero => intro attempt v h; simp [retryFromAttempt] at h
  | succ r ih =>
    intro attempt v h
    cases hw : work attempt with
    | ok w =>
      simp only [retryFromAttempt, hw] at h
      exact ⟨attempt, le_refl _, by omega, by rw [hw]; injection h with h2; rw [h2]⟩
    | err e =>
      simp only [retryFromAttempt, hw] at h
      by_cases hc : (isRateLimitError e && decide (0 < r)) = true
      · rw [if_pos hc] at h
        obtain ⟨k, hk1, hk2, hk3⟩ := ih (attempt + 1) v h
        exact ⟨k, by omega, by omega, hk3⟩
      · rw [if_neg hc] at h
        simp at h

/-- C1: every work item handed to `safeApiCall` resolves the caller's promise:
for every behaviour of the work item the run terminates with either a value
the work item actually produced on some attempt within the budget, or the
`null` sentinel; no rejection path exists (the result type of the embedding is
`Option T`, and every branch of `retryFromAttempt` returns). -/
theorem safeApiCall_never_rejects {T : Type} (work : Nat → AttemptOutcome T)
    (maxRetries initialDelay : Nat) :
    (∃ v k, (safeApiCall work maxRetries initialDelay).result = some v ∧
        1 ≤ k ∧ k ≤ maxRetries ∧ work k = .ok v) ∨
      (safeApiCall work maxRetries initialDelay).result = none := by
  cases hr : (safeApiCall work maxRetries initialDelay).result with
  | none => exact Or.inr rfl
  | some v =>
    obtain ⟨k, h1, h2, h3⟩ :=
      retryFromAttempt_result_ok work initialDelay maxRetries 1 v hr
    exact Or.inl ⟨v, k, rfl, h1, by omega, h3⟩

theorem infix_map_iff {α β : Type} (f : α → β) (pat : List β) (l : List α) :
    pat <:+: l.map f ↔ ∃ mid : List α, mid.map f = pat ∧ mid <:+: l := by
  constructor
  · rintro ⟨s, t, hst⟩
    have hst' : l.map f = s ++ (pat ++ t) := by
      rw [← hst, List.append_assoc]
    obtain ⟨l₁, l₂, hl, _, hpt⟩ := List.map_eq_append_iff.mp hst'
    obtain ⟨m, t', hl₂, hm, _⟩ := List.map_eq_append_iff.mp hpt
    exact ⟨m, hm, l₁, t', by rw [hl, hl₂, List.append_assoc]⟩
  · rintro ⟨mid, hm, hinf⟩
    rw [← hm]
    exact List.IsInfix.map f hinf

/-- C2: the retry procedure classifies an error as retryable exactly when its
stringified representation contains the substring "429" or a case-insensitive
occurrence of "rate limit"; everything else is terminal (not retried). -/
theorem isRateLimitError_iff_retryableSpec (e : JStr) :
    isRateLimitError e = true ↔ retryableSpec e := by
  unfold isRateLimitError retryableSpec jsIncludes jsToLower
  rw [Bool.or_eq_true, decide_eq_true_iff, decide_eq_true_iff]
  constructor
  · rintro (h | h)
    · exact Or.inl h
    · obtain ⟨mid, hm, hinf⟩ := (infix_map_iff Char.toLower patRateLimit e).mp h
      exact Or.inr ⟨mid, hm, hinf⟩
  · rintro (h | ⟨mid, hm, hinf⟩)
    · exact Or.inl h
    · exact Or.inr ((infix_map_iff Char.toLower patRateLimit e).mpr ⟨mid, hm, hinf⟩)

theorem retryFromAttempt_all_retryable {T : Type} (work : Nat → AttemptOutcome T)
    (initialDelay : Nat) :
    ∀ fuel attempt,
      (∀ j, attempt ≤ j → j < attempt + fuel → retryableOutcome (work j) = true) →
      (retryFromAttempt work initialDelay attempt fuel).result = none ∧
        (retryFromAttempt work initialDelay attempt fuel).calls = fuel := by
  intro fuel
  induction fuel with
  | zero =>
    intro attempt _
    exact ⟨rfl, rfl⟩
  | succ r ih =>
    intro attempt h
    have hat := h attempt (le_refl _) (by omega)
    cases hw : work attempt with
    | ok w =>
      rw [hw] at hat
      simp [retryableOutcome] at hat
    | err e =>
      rw [hw] at hat
      simp only [retryableOutcome] at hat
      rcases Nat.eq_zero_or_pos r with hr | hr
      · subst hr
        simp [retryFromAttempt, hw]
      · have hrec := ih (attempt + 1) (fun j h1 h2 => h j (by omega) (by omega))
        simp [retryFromAttempt, hw, hat, hr, hrec.1, hrec.2]

/-- C3: a work item whose every attempt within the budget fails with a
retryable (rate-limit) error is invoked exactly `maxRetries` times, never
more, and the caller's promise then resolves with the `null` sentinel. -/
theorem safeApiCall_exhausts_retries {T : Type} (work : Nat → AttemptOutcome T)
    (maxRetries initialDelay : Nat)
    (h : ∀ j, 1 ≤ j → j ≤ maxRetries → retryableOutcome (work j) = true) :
    (safeApiCall work maxRetries initialDelay).calls = maxRetries ∧
      (safeApiCall work maxRetries initialDelay).result = none := by
  have hrec := retryFromAttempt_all_retryable work initialDelay maxRetries 1
    (fun j h1 h2 => h j h1 (by omega))
  exact ⟨hrec.2, hrec.1⟩

theorem safeApiCall_exhausts_retries_witness :
    (∀ j, 1 ≤ j → j ≤ 3 → retryableOutcome (alwaysRate j) = true) ∧
      ((safeApiCall alwaysRate 3 7).calls = 3 ∧
        (safeApiCall alwaysRate 3 7).result = none) :=
  ⟨fun _ _ _ => rfl,
    safeApiCall_exhausts_retries alwaysRate 3 7 (fun _ _ _ => rfl)⟩

/-- C4: a work item whose first attempt fails with a non-retryable error
resolves with the `null` sentinel after exactly one invocation, with no
backoff delay performed. -/
theorem safeApiCall_terminal_single_attempt {T : Type}
    (work : Nat → AttemptOutcome T) (maxRetries initialDelay : Nat) (e : JStr)
    (hm : 1 ≤ maxRetries) (h1 : work 1 = .err e)
    (hrl : isRateLimitError e = false) :
    safeApiCall work maxRetries initialDelay = ⟨none, 1, []⟩ := by
  obtain ⟨r, rfl⟩ : ∃ r, maxRetries = r + 1 := ⟨maxRetries - 1, by omega⟩
  simp [safeApiCall, retryFromAttempt, h1, hrl]

theorem safeApiCall_terminal_single_attempt_witness :
    (1 ≤ 5 ∧ alwaysBoom 1 = .err ['b', 'o', 'o', 'm'] ∧
        isRateLimitError ['b', 'o', 'o', 'm'] = false) ∧
      safeApiCall alwaysBoom 5 10000 = ⟨none, 1, []⟩ :=
  ⟨⟨by decide, rfl, by decide⟩,
    safeApiCall_terminal_single_attempt alwaysBoom 5 10000 ['b', 'o', 'o', 'm']
      (by decide) rfl (by decide)⟩

theorem retryFromAttempt_backoff {T : Type} (work : Nat → AttemptOutcome T)
    (initialDelay : Nat) :
    ∀ kk attempt fuel, kk + 1 < fuel →
      (∀ j, attempt ≤ j → j ≤ attempt + kk → retryableOutcome (work j) = true) →
      (retryFromAttempt work initialDelay attempt fuel).waits[kk]? =
        some (initialDelay * 2 ^ (attempt + kk - 1)) := by
  intro kk
  induction kk with
  | zero =>
    intro attempt fuel hf h
    obtain ⟨r, rfl⟩ : ∃ r, fuel = r + 1 := ⟨fuel - 1, by omega⟩
    have hat := h attempt (le_refl _) (by omega)
    cases hw : work attempt with
    | ok w =>
      rw [hw] at hat
      simp [retryableOutcome] at hat
    | err e =>
      rw [hw] at hat
      simp only [retryableOutcome] at hat
      have hr : 0 < r := by omega
      simp [retryFromAttempt, hw, hat, hr]
  | succ kk ih =>
    intro attempt fuel hf h
    obtain ⟨r, rfl⟩ : ∃ r, fuel = r + 1 := ⟨fuel - 1, by omega⟩
    have hat := h attempt (le_refl _) (by omega)
    cases hw : work attempt with
    | ok w =>
      rw [hw] at hat
      simp [retryableOutcome] at hat
    | err e =>
      rw [hw] at hat
      simp only [retryableOutcome] at hat
      have hr : 0 < r := by omega
      have hrec := ih (attempt + 1) r (by omega)
        (fun j h1 h2 => h j (by omega) (by omega))
      have heq : attempt + 1 + kk - 1 = attempt + (kk + 1) - 1 := by omega
      rw [heq] at hrec
      simp [retryFromAttempt, hw, hat, hr, hrec]

/-- C5: if attempt `k` (with `1 ≤ k < maxRetries`) and all attempts before it
fail with retryable errors, the backoff delay awaited between attempt `k` and
attempt `k+1` is `initialDelay * 2 ^ (k - 1)` — pure exponential growth, no
jitter term. -/
theorem safeApiCall_backoff_growth {T : Type} (work : Nat → AttemptOutcome T)
    (maxRetries initialDelay k : Nat) (hk1 : 1 ≤ k) (hk2 : k < maxRetries)
    (h : ∀ j, 1 ≤ j → j ≤ k → retryableOutcome (work j) = true) :
    (safeApiCall work maxRetries initialDelay).waits[k - 1]? =
      some (initialDelay * 2 ^ (k - 1)) := by
  have hrec := retryFromAttempt_backoff work initialDelay (k - 1) 1 maxRetries
    (by omega) (fun j h1 h2 => h j h1 (by omega))
  have heq : 1 + (k - 1) - 1 = k - 1 := by omega
  rw [heq] at hrec
  exact hrec

theorem safeApiCall_backoff_growth_witness :
    (1 ≤ 2 ∧ 2 < 3 ∧ (∀ j, 1 ≤ j → j ≤ 2 → retryableOutcome (alwaysRate j) = true)) ∧
      (safeApiCall alwaysRate 3 10).waits[2 - 1]? = some (10 * 2 ^ (2 - 1)) :=
  ⟨⟨by decide, by decide, fun _ _ _ => rfl⟩,
    safeApiCall_backoff_growth alwaysRate 3 10 2 (by decide) (by decide)
      (fun _ _ _ => rfl)⟩

theorem queueInv_init : QueueInv initialQueueState := by
  refine ⟨?_, ?_, ?_, ?_, ?_, ?_, ?_⟩ <;> simp [initialQueueState]

theorem queueInv_step {s s' : QueueState} (hs : QueueStep s s')
    (hi : QueueInv s) : QueueInv s' := by
  cases hs with
  | submit id =>
    refine ⟨hi.activeLe, hi.idleEmpty, ?_, hi.counts, hi.finTimes, hi.idleCool,
      hi.gaps⟩
    show s.started.map Prod.fst ++ (s.pending ++ [id]) = s.submitted ++ [id]
    rw [← List.append_assoc, hi.fifo]
  | guardNoop _ => exact hi
  | guardPass id rest hf hp =>
    have hact : s.active = [] := hi.idleEmpty hf
    have hcnt : s.finished.length = s.started.length := by
      have := hi.counts
      rw [hact] at this
      simpa using this
    refine ⟨?_, ?_, ?_, ?_, hi.finTimes, ?_, ?_⟩
    · show (s.active ++ [DrainEntry.running id]).length ≤ 1
      rw [hact]
      simp
    · intro h
      simp at h
    · show (s.started ++ [(id, s.now)]).map Prod.fst ++ rest = s.submitted
      rw [List.map_append, List.append_assoc]
      show s.started.map Prod.fst ++ ([id] ++ rest) = s.submitted
      rw [List.singleton_append, ← hp, hi.fifo]
    · show s.finished.length +
        ((s.active ++ [DrainEntry.running id]).filter DrainEntry.isRun).length =
        (s.started ++ [(id, s.now)]).length
      rw [hact]
      simp [DrainEntry.isRun, hcnt]
    · intro h
      simp at h
    · intro k a t b u hfk hsk
      show t + cooldown ≤ u
      rw [List.getElem?_append] at hsk
      by_cases hlt : k + 1 < s.started.length
      · rw [if_pos hlt] at hsk
        exact hi.gaps k a t b u hfk hsk
      · rw [if_neg hlt] at hsk
        have hk1 : k < s.finished.length := by
          have := List.getElem?_eq_some_iff.mp hfk
          exact this.1
        have hk2 : k + 1 = s.started.length := by
          rcases Nat.lt_or_ge (k + 1 - s.started.length) 1 with h1 | h1
          · omega
          · rw [List.getElem?_eq_none (by simpa using h1)] at hsk
            exact absurd hsk (by simp)
        have : (k + 1) - s.started.length = 0 := by omega
        rw [this] at hsk
        simp at hsk
        have hlast : s.finished[s.finished.length - 1]? = some (a, t) := by
          have : s.finished.length - 1 = k := by omega
          rw [this]
          exact hfk
        have := hi.idleCool hf a t hlast
        omega
  | finishItem l₁ l₂ id success ha =>
    have hlen := hi.activeLe
    rw [ha] at hlen
    simp at hlen
    have h1 : l₁ = [] := by
      rw [← List.length_eq_zero]
      omega
    have h2 : l₂ = [] := by
      rw [← List.length_eq_zero]
      omega
    subst h1
    subst h2
    refine ⟨?_, ?_, hi.fifo, ?_, ?_, ?_, ?_⟩
    · simp
    · intro h
      have h0 := hi.idleEmpty h
      rw [h0] at ha
      simp at ha
    · show (s.finished ++ [(id, s.now)]).length +
        (([] ++ DrainEntry.cooling :: []).filter DrainEntry.isRun).length =
        s.started.length
      have := hi.counts
      rw [ha] at this
      simp [DrainEntry.isRun] at this
      simp [DrainEntry.isRun]
      omega
    · intro p hp
      show p.2 ≤ s.now
      rcases List.mem_append.mp hp with h | h
      · exact hi.finTimes p h
      · simp at h
        rw [h]
    · intro h
      have h0 := hi.idleEmpty h
      rw [h0] at ha
      simp at ha
    · intro k a t b u hfk hsk
      show t + cooldown ≤ u
      rw [List.getElem?_append] at hfk
      by_cases hlt : k < s.finished.length
      · rw [if_pos hlt] at hfk
        exact hi.gaps k a t b u hfk hsk
      · rw [if_neg hlt] at hfk
        have hcnt := hi.counts
        rw [ha] at hcnt
        simp [DrainEntry.isRun] at hcnt
        have hk : k = s.finished.length := by
          rcases Nat.lt_or_ge (k - s.finished.length) 1 with h1 | h1
          · omega
          · rw [List.getElem?_eq_none (by simpa using h1)] at hfk
            exact absurd hfk (by simp)
        have hsk' : s.started[k + 1]? = some (b, u) := hsk
        rw [List.getElem?_eq_none (by omega)] at hsk'
        exact absurd hsk' (by simp)
  | coolDone l₁ l₂ ha =>
    have hlen := hi.activeLe
    rw [ha] at hlen
    simp at hlen
    have h1 : l₁ = [] := by
      rw [← List.length_eq_zero]
      omega
    have h2 : l₂ = [] := by
      rw [← List.length_eq_zero]
      omega
    subst h1
    subst h2
    refine ⟨?_, ?_, hi.fifo, ?_, ?_, ?_, hi.gaps⟩
    · simp
    · intro _
      rfl
    · have := hi.counts
      rw [ha] at this
      simp [DrainEntry.isRun] at this
      simpa [DrainEntry.isRun] using this
    · intro p hp
      have := hi.finTimes p hp
      show p.2 ≤ s.now + cooldown
      omega
    · intro _ a t hlast
      have hmem : (a, t) ∈ s.finished := List.getElem?_mem hlast
      have := hi.finTimes (a, t) hmem
      show t + cooldown ≤ s.now + cooldown
      omega
  | tick d =>
    refine ⟨hi.activeLe, hi.idleEmpty, hi.fifo, hi.counts, ?_, ?_, hi.gaps⟩
    · intro p hp
      have := hi.finTimes p hp
      show p.2 ≤ s.now + d
      omega
    · intro h a t hlast
      have := hi.idleCool h a t hlast
      show t + cooldown ≤ s.now + d
      omega

theorem queueInv_reachable {s : QueueState} (h : QueueReachable s) :
    QueueInv s := by
  induction h with
  | init => exact queueInv_init
  | step _ hs ih => exact queueInv_step hs ih

/-- C6: in every reachable queue state the items that have begun executing,
in start order, followed by the still-pending items in queue order, are
exactly the submission order — `push` appends at the tail, the drain `shift`s
only the head — so starts happen in strict FIFO submission order (the start
order is a prefix of the submission order), with no reordering, priority, or
cancellation. -/
theorem queue_fifo_order (s : QueueState) (h : QueueReachable s) :
    s.started.map Prod.fst ++ s.pending = s.submitted ∧
      s.started.map Prod.fst <+: s.submitted :=
  have hi := queueInv_reachable h
  ⟨hi.fifo, ⟨s.pending, hi.fifo⟩⟩

/-- C7: in every reachable queue state at most one work item is in flight
(the guard returns whenever `isApiCallInFlight` is set or the queue is empty,
and the flag is raised before an item runs and lowered only after its
cooldown), and whenever the flag is down no drain stage is live at all. -/
theorem queue_mutual_exclusion (s : QueueState) (h : QueueReachable s) :
    (s.active.filter DrainEntry.isRun).length ≤ 1 ∧
      (s.inFlight = false → s.active = []) :=
  have hi := queueInv_reachable h
  ⟨le_trans (List.length_filter_le _ _) hi.activeLe, hi.idleEmpty⟩

/-- C8: in every reachable queue state, whether the `k`-th finished item
succeeded or failed, the item started next begins at least `cooldown` clock
units after that finish: the drain always awaits `delay(2000)` before
lowering the flag and admitting the next item. -/
theorem queue_cooldown_spacing (s : QueueState) (h : QueueReachable s)
    (k a t b u : Nat) (hf : s.finished[k]? = some (a, t))
    (hs : s.started[k + 1]? = some (b, u)) :
    t + cooldown ≤ u :=
  (queueInv_reachable h).gaps k a t b u hf hs

theorem queueWitnessState_reachable : QueueReachable queueWitnessState :=
  QueueReachable.step
    (QueueReachable.step
      (QueueReachable.step
        (QueueReachable.step
          (QueueReachable.step
            (QueueReachable.step QueueReachable.init
              (QueueStep.submit initialQueueState 1))
            (QueueStep.submit _ 2))
          (QueueStep.guardPass _ 1 [2] rfl rfl))
        (QueueStep.finishItem _ [] [] 1 true rfl))
      (QueueStep.coolDone _ [] [] rfl))
    (QueueStep.guardPass _ 2 [] rfl rfl)

theorem queue_fifo_order_witness :
    QueueReachable queueWitnessState ∧
      (queueWitnessState.started.map Prod.fst ++ queueWitnessState.pending =
          queueWitnessState.submitted ∧
        queueWitnessState.started.map Prod.fst <+: queueWitnessState.submitted) :=
  ⟨queueWitnessState_reachable,
    queue_fifo_order queueWitnessState queueWitnessState_reachable⟩

theorem queue_mutual_exclusion_witness :
    QueueReachable queueWitnessState ∧
      ((queueWitnessState.active.filter DrainEntry.isRun).length ≤ 1 ∧
        (queueWitnessState.inFlight = false → queueWitnessState.active = [])) :=
  ⟨queueWitnessState_reachable,
    queue_mutual_exclusion queueWitnessState queueWitnessState_reachable⟩

theorem queue_cooldown_spacing_witness :
    QueueReachable queueWitnessState ∧ 0 + cooldown ≤ cooldown :=
  ⟨queueWitnessState_reachable,
    queue_cooldown_spacing queueWitnessState queueWitnessState_reachable
      0 1 0 2 cooldown rfl rfl⟩

/-- C9 (counterexample): with an empty review list the sentiment-analysis
work item resolves successfully with the `null` sentinel — the AI oracle
succeeds on every attempt and no failure occurs anywhere — and the
caller-visible outcome of the submit is nevertheless `null`. -/
theorem analyzeSentiment_null_on_success :
    analyzeSentimentWork [] sentimentOracle 1 = .ok none ∧
      (analyzeSentiment [] sentimentOracle).result = some none ∧
      callerView (analyzeSentiment [] sentimentOracle) = none :=
  ⟨rfl, rfl, rfl⟩

/-- C9 (amended): no feature-level work item produces the `null` sentinel as
a legitimate successful result except through its explicit early-return
branches on degenerate input (`analyzeSentiment` with an empty review list —
the counterexample — and the first revision's analogous early returns): for a
nonempty review list every successful sentiment result is non-`null`, and
every successful result of the recommendation, pricing, and (second-revision)
demand-forecast work items is non-`null` for all inputs; so a `null` outcome
from submit indicates failure except in those early-return cases. -/
theorem featureWork_success_not_null (reviews : List Review)
    (sAi : Nat → AttemptOutcome SentimentResult)
    (rAi : Nat → AttemptOutcome RecsResponse)
    (pAi : Nat → AttemptOutcome PriceResult)
    (salesData : List Sale) (fAi : Nat → AttemptOutcome AiForecastResponse)
    (k : Nat) (hne : reviews ≠ []) :
    (∀ v, analyzeSentimentWork reviews sAi k = .ok v → v ≠ none) ∧
      (∀ v, getRecommendationsWork rAi k = .ok v → v ≠ none) ∧
      (∀ v, getOptimalPriceWork pAi k = .ok v → v ≠ none) ∧
      (∀ v, forecastProductDemandWork salesData fAi k = .ok v →
        some v ≠ (none : Option ProductForecastResult)) := by
  refine ⟨?_, ?_, ?_, ?_⟩
  · intro v hv
    unfold analyzeSentimentWork at hv
    rw [if_neg (by simpa using hne)] at hv
    cases ha : sAi k with
    | ok r =>
      rw [ha] at hv
      injection hv with h2
      rw [← h2]
      simp
    | err e =>
      rw [ha] at hv
      exact absurd hv (by simp)
  · intro v hv
    unfold getRecommendationsWork at hv
    cases ha : rAi k with
    | ok resp =>
      rw [ha] at hv
      injection hv with h2
      rw [← h2]
      simp
    | err e =>
      rw [ha] at hv
      exact absurd hv (by simp)
  · intro v hv
    unfold getOptimalPriceWork at hv
    cases ha : pAi k with
    | ok resp =>
      rw [ha] at hv
      injection hv with h2
      rw [← h2]
      simp
    | err e =>
      rw [ha] at hv
      exact absurd hv (by simp)
  · intro v _
    simp

theorem featureWork_success_not_null_witness :
    ([sampleReview] ≠ ([] : List Review)) ∧
      ((∀ v, analyzeSentimentWork [sampleReview] sentimentOracle 1 = .ok v →
          v ≠ none) ∧
        (∀ v, getRecommendationsWork recsOracle 1 = .ok v → v ≠ none) ∧
        (∀ v, getOptimalPriceWork priceOracle 1 = .ok v → v ≠ none) ∧
        (∀ v, forecastProductDemandWork [sampleSale, sampleSale]
            forecastOracle 1 = .ok v →
          some v ≠ (none : Option ProductForecastResult))) :=
  ⟨by decide,
    featureWork_success_not_null [sampleReview] sentimentOracle recsOracle
      priceOracle [sampleSale, sampleSale] forecastOracle 1 (by decide)⟩

/-- C10: with fewer than 2 sales records the forecast work item ignores the
AI oracle entirely (its outcome is the same under every oracle and attempt
number), and `forecastProductDemand` resolves with the non-null fallback
whose forecast list is empty, whose status is `'Watch'`, and whose
`totalForecast` is 0. -/
theorem forecastProductDemand_insufficient_data (salesData : List Sale)
    (h : salesData.length < 2) :
    (∀ ai₁ ai₂ k₁ k₂, forecastProductDemandWork salesData ai₁ k₁ =
        forecastProductDemandWork salesData ai₂ k₂) ∧
      ∀ ai, (forecastProductDemand salesData ai).result =
          some notEnoughDataResult ∧
        notEnoughDataResult.forecast = [] ∧
        notEnoughDataResult.status = "Watch".toList ∧
        notEnoughDataResult.totalForecast = 0 := by
  constructor
  · intro ai₁ ai₂ k₁ k₂
    unfold forecastProductDemandWork
    rw [if_pos h, if_pos h]
  · intro ai
    refine ⟨?_, rfl, rfl, rfl⟩
    have hw : forecastProductDemandWork salesData ai 1 =
        .ok notEnoughDataResult := by
      unfold forecastProductDemandWork
      rw [if_pos h]
    unfold forecastProductDemand safeApiCall
    simp [retryFromAttempt, hw]

theorem forecastProductDemand_insufficient_data_witness :
    (([] : List Sale).length < 2) ∧
      ((∀ ai₁ ai₂ k₁ k₂, forecastProductDemandWork [] ai₁ k₁ =
          forecastProductDemandWork [] ai₂ k₂) ∧
        ∀ ai, (forecastProductDemand [] ai).result = some notEnoughDataResult ∧
          notEnoughDataResult.forecast = [] ∧
          notEnoughDataResult.status = "Watch".toList ∧
          notEnoughDataResult.totalForecast = 0) :=
  ⟨by decide, forecastProductDemand_insufficient_data [] (by decide)⟩

end GeminiService
